import Mathlib

/-!
Verification of the iMessage MCP server engine (TypeScript source of the
version 3.0.0 server in this repository). The relevant functions are
shallowly embedded below: pure string and list manipulation is translated
directly from the source; external effects (the SQLite message store, the
AppleScript transport, the HTTPS embedding provider, the scheduled-message
JSON file, the system clock and the host date parser) are passed in as
explicit parameters; JavaScript millisecond timestamps are modelled as
integers.
-/

namespace IMessageMcp

/-! ### Phone number utilities -/

/-- Embeds the regex replace of all non-digit characters,
`phone.replace(/\D/g, "")`: keeps exactly the digit characters, in order. -/
def stripDigits (l : List Char) : List Char := l.filter Char.isDigit

/-- Embeds `normalizePhoneNumber` from the source, on character lists:
record whether the input starts with a plus sign, strip to digits, then
prefix `+1` for a 10-digit sequence, `+` for an 11-digit sequence starting
with `1`, and otherwise keep the digits with the leading plus if one was
present. -/
def normalizePhoneList (l : List Char) : List Char :=
  if (stripDigits l).length = 10 then '+' :: '1' :: stripDigits l
  else if (stripDigits l).length = 11 ∧ (stripDigits l).head? = some '1' then
    '+' :: stripDigits l
  else if l.head? = some '+' then '+' :: stripDigits l
  else stripDigits l

/-- String wrapper for `normalizePhoneList`; this is the embedding of the
source function `normalizePhoneNumber`. -/
def normalizePhoneNumber (s : String) : String := ⟨normalizePhoneList s.data⟩

/-- Restatement of phone normalization following the words of the
specification, for the refinement comparison in claim C6: strip all
non-digit characters except a leading plus sign; a bare 10-digit sequence
(bare meaning without a country code) is prefixed with `+1`; an 11-digit
sequence beginning with `1` is prefixed with `+`; all other digit
sequences retain any leading plus sign. -/
def normalizePhoneSpec (s : String) : String :=
  let digits := stripDigits s.data
  let stripped : List Char := if s.data.head? = some '+' then '+' :: digits else digits
  if digits.length = 10 then ⟨'+' :: '1' :: digits⟩
  else if digits.length = 11 ∧ digits.head? = some '1' then ⟨'+' :: digits⟩
  else ⟨stripped⟩

/-- Result record of `validatePhoneNumber` in the source. -/
structure PhoneValidation where
  valid : Bool
  normalized : String
  error : Option String
deriving DecidableEq, Repr

/-- Embeds `validatePhoneNumber` from the source: normalize first, then
require between 10 and 15 digits in the normalized form. -/
def validatePhoneNumber (phone : String) : PhoneValidation :=
  let normalized := normalizePhoneNumber phone
  let n := (stripDigits normalized.data).length
  if n < 10 then ⟨false, normalized, some "Phone number too short (minimum 10 digits)"⟩
  else if n > 15 then ⟨false, normalized, some "Phone number too long (maximum 15 digits)"⟩
  else ⟨true, normalized, none⟩

/-- Character class of the JavaScript regex escape for whitespace: the
ASCII whitespace characters plus the Unicode whitespace codepoints that
the JavaScript class matches (no-break space, ogham space mark, the
en-quad through hair-space range, line and paragraph separators, narrow
no-break space, medium mathematical space, ideographic space, and the
byte-order mark). -/
def jsWhitespace (c : Char) : Bool :=
  c = ' ' || c = '\t' || c = '\n' || c = '\r' || c = '\x0b' || c = '\x0c' ||
    c = '\u00A0' || c = '\u1680' || (0x2000 ≤ c.val && c.val ≤ 0x200A) ||
    c = '\u2028' || c = '\u2029' || c = '\u202F' || c = '\u205F' ||
    c = '\u3000' || c = '\uFEFF'

/-- A nonempty run of characters that are neither whitespace nor `@`,
matching one chunk of the email regex in the source. -/
def emailChunkOk (l : List Char) : Bool :=
  !l.isEmpty && l.all (fun c => !jsWhitespace c)

/-- Embeds `isEmail` from the source, the regex
`^[^\s@]+@[^\s@]+\.[^\s@]+$`: exactly one `@`, nonempty chunks on both
sides, and a dot in the domain that is neither its first nor its last
character (the regex chunks may themselves contain dots). -/
def isEmail (s : String) : Bool :=
  match s.data.splitOn '@' with
  | [localPart, domain] =>
      emailChunkOk localPart && emailChunkOk domain &&
        ((domain.drop 1).dropLast.contains '.')
  | _ => false

/-! ### Timestamp codec -/

/-- Embeds the `APPLE_EPOCH` constant: the millisecond epoch value of
2001-01-01T00:00:00Z. -/
def appleEpochMs : Int := 978307200000

/-- Embeds `appleTimestampFromDate`: encode a millisecond instant as
nanoseconds since the store epoch. -/
def appleTimestampFromDate (tMs : Int) : Int := (tMs - appleEpochMs) * 1000000

/-- Embeds `formatAppleTimestamp`: decode nanoseconds since the store
epoch back to a millisecond instant, with the sentinel `none` (rendered
as the string Unknown by the source) for a zero or missing timestamp.
The final ISO-8601 rendering of the instant is identity at millisecond
granularity and is not modelled. -/
def formatAppleTimestamp (ns : Int) : Option Int :=
  if ns = 0 then none else some (appleEpochMs + ns / 1000000)

/-! ### Message store rows and search -/

/-- One row of the message query results used by search. Text is the
message body (rows with NULL text are excluded by every query the claims
touch, so text is total here). `date` is the raw store timestamp in
nanoseconds since the store epoch. -/
structure MessageRow where
  id : Int
  text : String
  date : Int
  is_from_me : Bool
  contact_id : Option String
  chat_name : Option String
  is_read : Bool
  is_delivered : Bool
  chat_identifier : Option String
deriving DecidableEq, Repr

/-- Semantics of the SQL predicate `text LIKE pattern` with a pattern of
the shape percent-query-percent: case-insensitive substring containment
(SQLite LIKE is case-insensitive; the quote escaping in the source only
protects the query text and is identity at this semantic level). -/
def sqlLike (text pat : String) : Bool :=
  decide ((pat.data.map Char.toLower) <:+: (text.data.map Char.toLower))

/-- SQL `ORDER BY m.date DESC` as a sort relation. -/
def dateDesc (a b : MessageRow) : Bool := decide (b.date ≤ a.date)

/-- Embeds `searchMessagesFTS` as invoked with a query and a limit: the SQL
query filters rows whose text contains the query, orders by date
descending and caps at the limit. The optional date, contact and chat
filters of the source are absent (undefined) at both call sites the claims
compare, and are omitted here; the per-row output formatting is a
field-preserving map and is left out. -/
def searchMessagesFTS (db : List MessageRow) (q : String) (limit : Nat) : List MessageRow :=
  ((db.filter (fun m => sqlLike m.text q)).mergeSort dateDesc).take limit

/-- The credential check of the source, `if (!OPENAI_API_KEY)`: an absent
or empty environment variable is falsy. -/
def hasApiKey : Option String → Bool
  | none => false
  | some k => decide (k ≠ "")

/-- Embeds `getEmbedding`: returns nothing when the credential is absent,
otherwise defers to the embedding provider `net`, a parameter standing for
the HTTPS request, which yields `none` on any request failure. -/
def getEmbedding (apiKey : Option String) (net : String → Option (List ℚ))
    (text : String) : Option (List ℚ) :=
  if hasApiKey apiKey then net text else none

/-- Embeds the candidate window of `semanticSearch`: recent messages with
nonempty text longer than 10 characters, ordered by date descending,
capped at 500. -/
def semanticCandidates (db : List MessageRow) : List MessageRow :=
  ((db.filter (fun m => decide (m.text ≠ "") && decide (10 < m.text.length))).mergeSort
    dateDesc).take 500

/-- Embeds the per-candidate scoring step of `semanticSearch`: embed the
candidate text through the provider; a failed embedding scores 0, a
successful one scores the cosine similarity against the query vector. The
parameter `cos` stands for `cosineSimilarity`, whose square-root floating
point arithmetic is abstracted to an arbitrary rational-valued function
(the ranking claims hold for every such function). -/
def candidateSimilarity (cos : List ℚ → List ℚ → ℚ) (net : String → Option (List ℚ))
    (qe : List ℚ) (m : MessageRow) : ℚ :=
  match net m.text with
  | some e => cos qe e
  | none => 0

/-- The scored candidate list of `semanticSearch`, in store order. -/
def scoredCandidates (cos : List ℚ → List ℚ → ℚ) (net : String → Option (List ℚ))
    (qe : List ℚ) (db : List MessageRow) : List (MessageRow × ℚ) :=
  (semanticCandidates db).map (fun m => (m, candidateSimilarity cos net qe m))

/-- The JavaScript sort comparator `(a, b) => b.similarity - a.similarity`
as a boolean relation: descending by similarity. JavaScript array sort is
stable, which `List.mergeSort` models. -/
def simDesc (a b : MessageRow × ℚ) : Bool := decide (b.2 ≤ a.2)

/-- The result of `semanticSearch`: the executed mode tag together with the
results of that mode (keyword results are plain rows, semantic results
carry their similarity score). -/
inductive SearchOutcome where
  | keyword (results : List MessageRow)
  | semantic (results : List (MessageRow × ℚ))
deriving DecidableEq

/-- Embeds `semanticSearch`: if the query embedding is unavailable
(credential absent, or the provider request failed) fall back to the
lexical search with the same query and limit, tagged keyword; otherwise
score the candidate window, sort by descending similarity with the stable
sort, and keep the top `limit`. -/
def semanticSearch (cos : List ℚ → List ℚ → ℚ) (net : String → Option (List ℚ))
    (apiKey : Option String) (db : List MessageRow) (q : String) (limit : Nat) :
    SearchOutcome :=
  match getEmbedding apiKey net q with
  | none => .keyword (searchMessagesFTS db q limit)
  | some qe => .semantic (((scoredCandidates cos net qe db).mergeSort simDesc).take limit)

/-! ### Message sending -/

/-- The two delivery channels attempted by `sendMessage`. -/
inductive Channel where
  | iMessage
  | SMS
deriving DecidableEq, Repr

/-- The result record of `sendMessage` in the source. -/
structure SendOutcome where
  success : Bool
  service : Option String := none
  error : Option String := none
deriving DecidableEq, Repr

/-- Embeds the delivery phase of `sendMessage`: try the iMessage
AppleScript; on its failure try the SMS AppleScript once; on a second
failure report failure. The booleans stand for the success of each
osascript invocation; the returned list records the channels attempted,
in order. -/
def attemptDelivery (primaryOk secondaryOk : Bool) (smsErr : String) :
    SendOutcome × List Channel :=
  if primaryOk then
    ({ success := true, service := some "iMessage" }, [.iMessage])
  else if secondaryOk then
    ({ success := true, service := some "SMS" }, [.iMessage, .SMS])
  else
    ({ success := false,
       error := some ("Failed to send message. Ensure Messages app is running and you have automation permission. Error: " ++ smsErr) },
     [.iMessage, .SMS])

/-- Embeds `sendMessage` from the source: validate the recipient first (an
email-shaped recipient is used verbatim, anything else must pass phone
validation, failing with the validation error and no delivery attempt),
then run the delivery phase. -/
def sendMessage (primaryOk secondaryOk : Bool) (smsErr : String)
    (recipient message : String) : SendOutcome × List Channel :=
  if isEmail recipient then attemptDelivery primaryOk secondaryOk smsErr
  else
    let v := validatePhoneNumber recipient
    if v.valid then attemptDelivery primaryOk secondaryOk smsErr
    else ({ success := false, error := v.error }, [])

/-! ### Scheduled messages -/

/-- The per-entry state machine states of the schedule store. -/
inductive ScheduleStatus where
  | pending
  | sent
  | failed
  | cancelled
deriving DecidableEq, Repr

/-- One persisted scheduled-delivery entry. The source stores the two
instants as ISO-8601 strings; they are modelled as millisecond integers
(the conversion is a bijection at millisecond granularity). -/
structure ScheduledMessage where
  id : String
  recipient : String
  message : String
  scheduledTime : Int
  created : Int
  status : ScheduleStatus
  error : Option String
deriving DecidableEq, Repr

/-- The failure modes of `cancelScheduledMessage`. -/
inductive CancelError where
  | notFound
  | invalidState (status : ScheduleStatus)
deriving DecidableEq, Repr

/-- Embeds `cancelScheduledMessage`: find the first entry with the given
id (the `findIndex` of the source); missing id is a not-found failure, a
non-pending entry is an invalid-state failure, and a pending entry is set
to cancelled in place. The returned list is the log persisted by
`saveScheduledMessages` (the log is returned unchanged on failure, where
the source does not write). -/
def cancelScheduledMessage : List ScheduledMessage → String →
    Except CancelError Unit × List ScheduledMessage
  | [], _ => (.error .notFound, [])
  | m :: rest, cid =>
    if m.id = cid then
      if m.status = .pending then (.ok (), { m with status := .cancelled } :: rest)
      else (.error (.invalidState m.status), m :: rest)
    else
      ((cancelScheduledMessage rest cid).1, m :: (cancelScheduledMessage rest cid).2)

/-- Embeds `getScheduledMessages`: returns the persisted log as is. -/
def getScheduledMessages (log : List ScheduledMessage) : List ScheduledMessage := log

/-- Embeds `scheduleMessage`. The parameter `parseInstant` stands for the
host date parser `new Date(string)` (yielding `none` exactly when the
source gets an invalid date); `now` is the creation instant read from the
clock; `newId` stands for the generated time-plus-random id. Validation
order follows the source: recipient first, then parseability, then the
strict-future check; each failure returns before the log is touched. On
success exactly one pending entry is appended and the log persisted. -/
def scheduleMessage (parseInstant : String → Option Int) (now : Int) (newId : String)
    (recipient message scheduledTime : String) (log : List ScheduledMessage) :
    Except String String × List ScheduledMessage :=
  let recipientCheck : Except String String :=
    if isEmail recipient then .ok recipient
    else
      let v := validatePhoneNumber recipient
      if v.valid then .ok v.normalized else .error (v.error.getD "")
  match recipientCheck with
  | .error e => (.error e, log)
  | .ok recipientNorm =>
    match parseInstant scheduledTime with
    | none => (.error "Invalid scheduled time format", log)
    | some t =>
      if t ≤ now then (.error "Scheduled time must be in the future", log)
      else
        (.ok newId,
         log ++ [{ id := newId, recipient := recipientNorm, message := message,
                   scheduledTime := t, created := now, status := .pending,
                   error := none }])

/-- The per-entry action of one sweep: a pending entry whose scheduled
time is at or before `now` is fired through `send` (the transport) and its
status becomes sent or failed accordingly, recording the transport error
text on failure; every other entry is left untouched. -/
def sweepStep (send : String → String → SendOutcome) (now : Int)
    (msg : ScheduledMessage) : ScheduledMessage :=
  if msg.status = .pending ∧ msg.scheduledTime ≤ now then
    if (send msg.recipient msg.message).success then { msg with status := .sent }
    else { msg with status := .failed, error := (send msg.recipient msg.message).error }
  else msg

/-- The sent and failed counters reported by one sweep. -/
structure SweepSummary where
  sent : Nat
  failed : Nat
deriving DecidableEq, Repr

/-- Embeds `sendScheduledMessages` (the sweep): apply `sweepStep` to every
entry of the log, count the transitions, and persist the updated log once
at the end. The per-entry `results` report list of the source is
reporting-only and not modelled. -/
def sendScheduledMessages (send : String → String → SendOutcome) (now : Int)
    (log : List ScheduledMessage) : SweepSummary × List ScheduledMessage :=
  ({ sent := (log.filter (fun m =>
        decide (m.status = .pending) && decide (m.scheduledTime ≤ now) &&
          (send m.recipient m.message).success)).length,
     failed := (log.filter (fun m =>
        decide (m.status = .pending) && decide (m.scheduledTime ≤ now) &&
          !(send m.recipient m.message).success)).length },
   log.map (sweepStep send now))

/-! ### Concrete sample data for the witnesses -/

/-- Sample message row. -/
def sampleRow1 : MessageRow :=
  { id := 1, text := "hello world from here", date := 300, is_from_me := false,
    contact_id := some "+15551230001", chat_name := some "Ann", is_read := true,
    is_delivered := true, chat_identifier := some "+15551230001" }

/-- Sample message row. -/
def sampleRow2 : MessageRow :=
  { id := 2, text := "general kenobi replies", date := 200, is_from_me := true,
    contact_id := some "+15551230002", chat_name := some "Bob", is_read := false,
    is_delivered := true, chat_identifier := some "+15551230002" }

/-- Sample message store. -/
def sampleDb : List MessageRow := [sampleRow1, sampleRow2]

/-- Constant cosine stand-in for witnesses. -/
def cosZero : List ℚ → List ℚ → ℚ := fun _ _ => 0

/-- Constant embedding provider for witnesses. -/
def netOne : String → Option (List ℚ) := fun _ => some [1]

/-- Constant date parser for witnesses. -/
def parseW : String → Option Int := fun _ => some 5

/-- Always-successful transport for witnesses. -/
def sendOkW : String → String → SendOutcome :=
  fun _ _ => { success := true, service := some "iMessage", error := none }

/-- A pending scheduled entry for witnesses. -/
def entryPendingW : ScheduledMessage :=
  { id := "a", recipient := "+15551234567", message := "hi", scheduledTime := 10,
    created := 0, status := .pending, error := none }

/-- An already sent scheduled entry for witnesses. -/
def entrySentW : ScheduledMessage :=
  { id := "b", recipient := "+15551234567", message := "hi", scheduledTime := 10,
    created := 0, status := .sent, error := none }

/-! ### Helper lemmas: phone normalization -/

theorem mem_stripDigits {l : List Char} {c : Char} (h : c ∈ stripDigits l) :
    c.isDigit = true :=
  (List.mem_filter.mp h).2

theorem stripDigits_stripDigits (l : List Char) :
    stripDigits (stripDigits l) = stripDigits l :=
  List.filter_eq_self.mpr (fun _ hc => mem_stripDigits hc)

theorem stripDigits_plus_cons (l : List Char) :
    stripDigits ('+' :: l) = stripDigits l := rfl

theorem stripDigits_one_cons (l : List Char) :
    stripDigits ('1' :: l) = '1' :: stripDigits l := rfl

theorem head_stripDigits_ne_plus (l : List Char) :
    (stripDigits l).head? ≠ some '+' := by
  intro hcontra
  have hmem : '+' ∈ stripDigits l := by
    cases hsd : stripDigits l with
    | nil => rw [hsd] at hcontra; simp at hcontra
    | cons a t =>
      rw [hsd] at hcontra
      simp only [List.head?_cons, Option.some.injEq] at hcontra
      rw [← hcontra]
      exact List.mem_cons_self a t
  exact absurd (mem_stripDigits hmem) (by decide)

theorem normalizePhoneList_idem (l : List Char) :
    normalizePhoneList (normalizePhoneList l) = normalizePhoneList l := by
  by_cases h10 : (stripDigits l).length = 10
  · have hin : normalizePhoneList l = '+' :: '1' :: stripDigits l := by
      unfold normalizePhoneList
      rw [if_pos h10]
    have hd : stripDigits ('+' :: '1' :: stripDigits l) = '1' :: stripDigits l := by
      rw [stripDigits_plus_cons, stripDigits_one_cons, stripDigits_stripDigits]
    rw [hin]
    unfold normalizePhoneList
    rw [hd, if_neg (by simp [h10]), if_pos (⟨by simp [h10], rfl⟩ :
      ('1' :: stripDigits l).length = 11 ∧ ('1' :: stripDigits l).head? = some '1')]
  · by_cases h11 : (stripDigits l).length = 11 ∧ (stripDigits l).head? = some '1'
    · have hin : normalizePhoneList l = '+' :: stripDigits l := by
        unfold normalizePhoneList
        rw [if_neg h10, if_pos h11]
      have hd : stripDigits ('+' :: stripDigits l) = stripDigits l := by
        rw [stripDigits_plus_cons, stripDigits_stripDigits]
      rw [hin]
      unfold normalizePhoneList
      rw [hd, if_neg h10, if_pos h11]
    · by_cases hplus : l.head? = some '+'
      · have hin : normalizePhoneList l = '+' :: stripDigits l := by
          unfold normalizePhoneList
          rw [if_neg h10, if_neg h11, if_pos hplus]
        have hd : stripDigits ('+' :: stripDigits l) = stripDigits l := by
          rw [stripDigits_plus_cons, stripDigits_stripDigits]
        rw [hin]
        unfold normalizePhoneList
        rw [hd, if_neg h10, if_neg h11,
          if_pos (show ('+' :: stripDigits l).head? = some '+' from rfl)]
      · have hin : normalizePhoneList l = stripDigits l := by
          unfold normalizePhoneList
          rw [if_neg h10, if_neg h11, if_neg hplus]
        rw [hin]
        unfold normalizePhoneList
        rw [stripDigits_stripDigits, if_neg h10, if_neg h11,
          if_neg (head_stripDigits_ne_plus l)]

/-! ### Helper lemmas: schedule store -/

theorem cancel_notFound (log : List ScheduledMessage) (cid : String)
    (h : ∀ x ∈ log, x.id ≠ cid) :
    cancelScheduledMessage log cid = (.error .notFound, log) := by
  induction log with
  | nil => rfl
  | cons m rest ih =>
    have hm : m.id ≠ cid := h m (List.mem_cons_self m rest)
    have hrest := ih (fun x hx => h x (List.mem_cons_of_mem m hx))
    simp [cancelScheduledMessage, hm, hrest]

theorem cancel_found (pre post : List ScheduledMessage) (e : ScheduledMessage)
    (cid : String) (hpre : ∀ x ∈ pre, x.id ≠ cid) (hid : e.id = cid) :
    cancelScheduledMessage (pre ++ e :: post) cid =
      if e.status = .pending then
        (.ok (), pre ++ { e with status := .cancelled } :: post)
      else (.error (.invalidState e.status), pre ++ e :: post) := by
  induction pre with
  | nil =>
    by_cases hst : e.status = ScheduleStatus.pending
    · simp [cancelScheduledMessage, hid, hst]
    · simp [cancelScheduledMessage, hid, hst]
  | cons a l ih =>
    have ha : a.id ≠ cid := hpre a (List.mem_cons_self a l)
    have hrest := ih (fun x hx => hpre x (List.mem_cons_of_mem a hx))
    by_cases hst : e.status = ScheduleStatus.pending
    · rw [if_pos hst] at hrest
      simp [cancelScheduledMessage, ha, hrest, if_pos hst]
    · rw [if_neg hst] at hrest
      simp [cancelScheduledMessage, ha, hrest, if_neg hst]

theorem getElem?_append_cons_length {α : Type} (l : List α) (x : α) (t : List α) :
    (l ++ x :: t)[l.length]? = some x := by
  induction l with
  | nil => simp
  | cons a l ih => simpa using ih

theorem validatePhoneNumber_valid_iff (p : String) :
    (validatePhoneNumber p).valid = true ↔
      10 ≤ (stripDigits (normalizePhoneNumber p).data).length ∧
        (stripDigits (normalizePhoneNumber p).data).length ≤ 15 := by
  simp only [validatePhoneNumber]
  split_ifs with h1 h2 <;> simp <;> omega

/-! ### Helper lemmas: semantic ranking -/

theorem simDesc_trans (a b c : MessageRow × ℚ) (h1 : simDesc a b = true)
    (h2 : simDesc b c = true) : simDesc a c = true := by
  simp only [simDesc, decide_eq_true_eq] at h1 h2 ⊢
  exact le_trans h2 h1

theorem simDesc_total (a b : MessageRow × ℚ) :
    (simDesc a b || simDesc b a) = true := by
  simp only [simDesc, Bool.or_eq_true, decide_eq_true_eq]
  exact le_total b.2 a.2

theorem filter_eq_mergeSort_filter (l : List (MessageRow × ℚ)) (s : ℚ) :
    (l.mergeSort simDesc).filter (fun p => decide (p.2 = s)) =
      l.filter (fun p => decide (p.2 = s)) := by
  have hApw : (l.filter (fun p => decide (p.2 = s))).Pairwise
      (fun a b => simDesc a b = true) := by
    refine List.pairwise_of_forall_mem_list ?_
    intro a ha b hb
    have ha' : a.2 = s := by simpa using (List.of_mem_filter ha)
    have hb' : b.2 = s := by simpa using (List.of_mem_filter hb)
    simp [simDesc, ha', hb']
  have h1 : (l.filter (fun p => decide (p.2 = s))).Sublist (l.mergeSort simDesc) :=
    List.sublist_mergeSort simDesc_trans simDesc_total hApw (List.filter_sublist l)
  have hself : (l.filter (fun p => decide (p.2 = s))).filter
      (fun p => decide (p.2 = s)) = l.filter (fun p => decide (p.2 = s)) := by
    refine List.filter_eq_self.mpr ?_
    intro a ha
    simpa using List.of_mem_filter ha
  have h2 := List.Sublist.filter (fun p => decide (p.2 = s)) h1
  rw [hself] at h2
  have hperm : ((l.mergeSort simDesc).filter (fun p => decide (p.2 = s))).Perm
      (l.filter (fun p => decide (p.2 = s))) :=
    (List.mergeSort_perm l simDesc).filter _
  exact (h2.eq_of_length hperm.length_eq.symm).symm

theorem filter_take_front {α : Type} (p : α → Bool) (n : Nat) (l : List α) :
    (l.take n).filter p <+: l.filter p := by
  conv_rhs => rw [← List.take_append_drop n l]
  rw [List.filter_append]
  exact List.prefix_append _ _

/-! ### Claim theorems -/

/-- C1: an entry in a terminal state (sent, failed or cancelled, that is,
anything other than pending) is never modified again: cancelling any id
leaves it untouched, and a sweep at any time with any transport leaves it
untouched. -/
theorem c1_terminal_states_frozen (log : List ScheduledMessage) (cid : String)
    (send : String → String → SendOutcome) (now : Int) (i : Nat)
    (e : ScheduledMessage) (hget : log[i]? = some e)
    (hterm : e.status ≠ .pending) :
    (cancelScheduledMessage log cid).2[i]? = some e ∧
      (sendScheduledMessages send now log).2[i]? = some e := by
  constructor
  · induction log generalizing i with
    | nil => simp at hget
    | cons m rest ih =>
      by_cases hid : m.id = cid
      · by_cases hst : m.status = ScheduleStatus.pending
        · have hres : (cancelScheduledMessage (m :: rest) cid).2 =
              { m with status := .cancelled } :: rest := by
            simp [cancelScheduledMessage, hid, hst]
          rw [hres]
          cases i with
          | zero =>
            have hme : m = e := by simpa using hget
            exact absurd hst (by rw [hme]; exact hterm)
          | succ n => simpa using hget
        · have hres : (cancelScheduledMessage (m :: rest) cid).2 = m :: rest := by
            simp [cancelScheduledMessage, hid, hst]
          rw [hres]
          exact hget
      · have hres : (cancelScheduledMessage (m :: rest) cid).2 =
            m :: (cancelScheduledMessage rest cid).2 := by
          simp [cancelScheduledMessage, hid]
        rw [hres]
        cases i with
        | zero => simpa using hget
        | succ n =>
          simp only [List.getElem?_cons_succ] at hget ⊢
          exact ih n hget
  · have hmap : (sendScheduledMessages send now log).2 =
        log.map (sweepStep send now) := rfl
    rw [hmap, List.getElem?_map, hget]
    simp [sweepStep, hterm]

/-- Witness for C1: a sent entry survives both a cancel that targets its
id and a sweep whose time is past its scheduled time. -/
theorem c1_witness :
    ([entrySentW][0]? = some entrySentW) ∧ entrySentW.status ≠ .pending ∧
      (cancelScheduledMessage [entrySentW] "b").2[0]? = some entrySentW ∧
      (sendScheduledMessages sendOkW 100 [entrySentW]).2[0]? = some entrySentW := by
  refine ⟨rfl, by decide, ?_, ?_⟩
  · exact (c1_terminal_states_frozen [entrySentW] "b" sendOkW 100 0 entrySentW rfl
      (by decide)).1
  · exact (c1_terminal_states_frozen [entrySentW] "b" sendOkW 100 0 entrySentW rfl
      (by decide)).2

/-- C2: cancel fails with not-found when no entry carries the id; when the
first entry carrying the id is not pending it fails with invalid-state and
the log is unchanged; when that entry is pending it becomes cancelled, the
updated log is the one persisted, and the change is visible at the same
position in a subsequent list call. -/
theorem c2_cancel_spec (log : List ScheduledMessage) (cid : String)
    (pre post : List ScheduledMessage) (e : ScheduledMessage) :
    ((∀ x ∈ log, x.id ≠ cid) →
        cancelScheduledMessage log cid = (.error .notFound, log)) ∧
      (log = pre ++ e :: post → (∀ x ∈ pre, x.id ≠ cid) → e.id = cid →
        ((e.status ≠ .pending →
            cancelScheduledMessage log cid =
              (.error (.invalidState e.status), log)) ∧
          (e.status = .pending →
            cancelScheduledMessage log cid =
                (.ok (), pre ++ { e with status := .cancelled } :: post) ∧
              (getScheduledMessages
                  (cancelScheduledMessage log cid).2)[pre.length]? =
                some { e with status := .cancelled }))) := by
  refine ⟨cancel_notFound log cid, ?_⟩
  intro hlog hpre hid
  subst hlog
  have hfound := cancel_found pre post e cid hpre hid
  constructor
  · intro hst
    rw [hfound, if_neg hst]
  · intro hst
    rw [hfound, if_pos hst]
    exact ⟨rfl, getElem?_append_cons_length pre _ post⟩

/-- Witness for C2: cancelling the pending entry of a one-entry log
succeeds, rewrites its status to cancelled, and the cancelled entry is
what a subsequent list call returns at its position. -/
theorem c2_witness :
    cancelScheduledMessage [entryPendingW] "a" =
        (.ok (), [{ entryPendingW with status := .cancelled }]) ∧
      (getScheduledMessages
          (cancelScheduledMessage [entryPendingW] "a").2)[0]? =
        some { entryPendingW with status := .cancelled } :=
  ((c2_cancel_spec [entryPendingW] "a" [] [] entryPendingW).2 rfl
    (fun x hx => absurd hx (List.not_mem_nil x)) rfl).2 rfl

/-- C3: scheduling fails with a validation error and leaves the persisted
log untouched whenever the recipient is neither email-shaped nor a phone
number with 10 to 15 digits after normalization, or the scheduled time
does not parse, or the scheduled time is not strictly later than the
creation time; otherwise it succeeds and appends exactly one pending
entry. -/
theorem c3_schedule_validation (parseInstant : String → Option Int) (now : Int)
    (newId recipient message scheduledTime : String)
    (log : List ScheduledMessage) (t : Int) :
    (¬ (isEmail recipient = true ∨
          (10 ≤ (stripDigits (normalizePhoneNumber recipient).data).length ∧
            (stripDigits (normalizePhoneNumber recipient).data).length ≤ 15)) →
        ∃ err, scheduleMessage parseInstant now newId recipient message
          scheduledTime log = (.error err, log)) ∧
      (parseInstant scheduledTime = none →
        ∃ err, scheduleMessage parseInstant now newId recipient message
          scheduledTime log = (.error err, log)) ∧
      (parseInstant scheduledTime = some t → t ≤ now →
        ∃ err, scheduleMessage parseInstant now newId recipient message
          scheduledTime log = (.error err, log)) ∧
      ((isEmail recipient = true ∨
          (10 ≤ (stripDigits (normalizePhoneNumber recipient).data).length ∧
            (stripDigits (normalizePhoneNumber recipient).data).length ≤ 15)) →
        parseInstant scheduledTime = some t → now < t →
        ∃ entry, scheduleMessage parseInstant now newId recipient message
            scheduledTime log = (.ok newId, log ++ [entry]) ∧
          entry.status = .pending) := by
  refine ⟨?_, ?_, ?_, ?_⟩
  · intro hbad
    rw [not_or] at hbad
    obtain ⟨hem, hbounds⟩ := hbad
    have hem' : isEmail recipient = false := by simpa using hem
    have hval : (validatePhoneNumber recipient).valid = false := by
      cases hv : (validatePhoneNumber recipient).valid
      · rfl
      · exact absurd ((validatePhoneNumber_valid_iff recipient).mp hv) hbounds
    exact ⟨(validatePhoneNumber recipient).error.getD "",
      by simp [scheduleMessage, hem', hval]⟩
  · intro hp
    by_cases hem : isEmail recipient = true
    · exact ⟨"Invalid scheduled time format", by simp [scheduleMessage, hem, hp]⟩
    · have hem' : isEmail recipient = false := by simpa using hem
      cases hv : (validatePhoneNumber recipient).valid
      · exact ⟨(validatePhoneNumber recipient).error.getD "",
          by simp [scheduleMessage, hem', hv]⟩
      · exact ⟨"Invalid scheduled time format",
          by simp [scheduleMessage, hem', hv, hp]⟩
  · intro hp hle
    by_cases hem : isEmail recipient = true
    · exact ⟨"Scheduled time must be in the future",
        by simp [scheduleMessage, hem, hp, hle]⟩
    · have hem' : isEmail recipient = false := by simpa using hem
      cases hv : (validatePhoneNumber recipient).valid
      · exact ⟨(validatePhoneNumber recipient).error.getD "",
          by simp [scheduleMessage, hem', hv]⟩
      · exact ⟨"Scheduled time must be in the future",
          by simp [scheduleMessage, hem', hv, hp, hle]⟩
  · intro hok hp hlt
    have hnle : ¬ t ≤ now := not_le.mpr hlt
    by_cases hem : isEmail recipient = true
    · refine ⟨⟨newId, recipient, message, t, now, .pending, none⟩, ?_, rfl⟩
      simp [scheduleMessage, hem, hp, hnle]
    · have hem' : isEmail recipient = false := by simpa using hem
      have hbounds := hok.resolve_left hem
      have hv : (validatePhoneNumber recipient).valid = true :=
        (validatePhoneNumber_valid_iff recipient).mpr hbounds
      refine ⟨⟨newId, (validatePhoneNumber recipient).normalized, message, t, now,
        .pending, none⟩, ?_, rfl⟩
      simp [scheduleMessage, hem', hv, hp, hnle]

/-- Witness for C3: scheduling to an email-shaped recipient with a
parseable strictly-future time succeeds and appends one pending entry. -/
theorem c3_witness :
    (isEmail "test@example.com" = true ∨
        (10 ≤ (stripDigits (normalizePhoneNumber "test@example.com").data).length ∧
          (stripDigits (normalizePhoneNumber "test@example.com").data).length ≤ 15)) ∧
      parseW "soon" = some 5 ∧ (0 : Int) < 5 ∧
      ∃ entry, scheduleMessage parseW 0 "sched_1" "test@example.com" "hi" "soon" [] =
          (.ok "sched_1", [entry]) ∧ entry.status = .pending :=
  ⟨Or.inl rfl, rfl, by norm_num,
    (c3_schedule_validation parseW 0 "sched_1" "test@example.com" "hi" "soon" [] 5).2.2.2
      (Or.inl rfl) rfl (by norm_num)⟩

/-- C4: with no provider credential configured (environment variable
absent, or present but empty, both falsy in the source check) a semantic
search returns the outcome explicitly tagged keyword whose results are
exactly those of the lexical search run with the same query and limit. -/
theorem c4_semantic_fallback (cos : List ℚ → List ℚ → ℚ)
    (net : String → Option (List ℚ)) (apiKey : Option String)
    (db : List MessageRow) (q : String) (n : Nat)
    (h : apiKey = none ∨ apiKey = some "") :
    semanticSearch cos net apiKey db q n = .keyword (searchMessagesFTS db q n) := by
  rcases h with h | h <;> subst h <;> rfl

/-- Witness for C4 on the sample store with no credential. -/
theorem c4_witness :
    ((none : Option String) = none ∨ (none : Option String) = some "") ∧
      semanticSearch cosZero netOne none sampleDb "hello" 2 =
        .keyword (searchMessagesFTS sampleDb "hello" 2) :=
  ⟨Or.inl rfl, c4_semantic_fallback cosZero netOne none sampleDb "hello" 2 (Or.inl rfl)⟩

/-- C5: a semantic-mode search (credential present and the query embedding
obtained) returns the scored candidates stably sorted by descending
similarity and truncated to the limit: the output is pairwise descending
in score, has at most `limit` entries, and the entries carrying any fixed
score `s` form a prefix of the equal-score candidates in their original
store order. -/
theorem c5_semantic_ranking (cos : List ℚ → List ℚ → ℚ)
    (net : String → Option (List ℚ)) (apiKey : Option String) (qe : List ℚ)
    (db : List MessageRow) (q : String) (limit : Nat) (s : ℚ)
    (hkey : hasApiKey apiKey = true) (hq : net q = some qe) :
    semanticSearch cos net apiKey db q limit =
        .semantic (((scoredCandidates cos net qe db).mergeSort simDesc).take limit) ∧
      (((scoredCandidates cos net qe db).mergeSort simDesc).take limit).Pairwise
        (fun a b => b.2 ≤ a.2) ∧
      (((scoredCandidates cos net qe db).mergeSort simDesc).take limit).length ≤
        limit ∧
      (((scoredCandidates cos net qe db).mergeSort simDesc).take limit).filter
          (fun p => decide (p.2 = s)) <+:
        (scoredCandidates cos net qe db).filter (fun p => decide (p.2 = s)) := by
  refine ⟨?_, ?_, ?_, ?_⟩
  · simp [semanticSearch, getEmbedding, hkey, hq]
  · have hs := List.sorted_mergeSort simDesc_trans simDesc_total
      (scoredCandidates cos net qe db)
    have hs' : ((scoredCandidates cos net qe db).mergeSort simDesc).Pairwise
        (fun a b => b.2 ≤ a.2) :=
      hs.imp (fun h => by simpa [simDesc] using h)
    exact List.Pairwise.sublist (List.take_sublist _ _) hs'
  · exact List.length_take_le limit _
  · have hpre := filter_take_front (fun p => decide (p.2 = s)) limit
      ((scoredCandidates cos net qe db).mergeSort simDesc)
    rwa [filter_eq_mergeSort_filter] at hpre

/-- Witness for C5 on the sample store with a configured credential. -/
theorem c5_witness :
    hasApiKey (some "key") = true ∧ netOne "hi" = some [1] ∧
      (semanticSearch cosZero netOne (some "key") sampleDb "hi" 1 =
          .semantic (((scoredCandidates cosZero netOne [1] sampleDb).mergeSort
            simDesc).take 1) ∧
        (((scoredCandidates cosZero netOne [1] sampleDb).mergeSort simDesc).take
            1).Pairwise (fun a b => b.2 ≤ a.2) ∧
        (((scoredCandidates cosZero netOne [1] sampleDb).mergeSort simDesc).take
            1).length ≤ 1 ∧
        (((scoredCandidates cosZero netOne [1] sampleDb).mergeSort simDesc).take
            1).filter (fun p => decide (p.2 = 0)) <+:
          (scoredCandidates cosZero netOne [1] sampleDb).filter
            (fun p => decide (p.2 = 0))) :=
  ⟨rfl, rfl, c5_semantic_ranking cosZero netOne (some "key") [1] sampleDb "hi" 1 0 rfl rfl⟩

/-- C6: phone normalization strips all non-digit characters except a
leading plus sign, prefixes a 10-digit sequence with `+1`, prefixes an
11-digit sequence beginning with `1` with `+`, and lets every other digit
sequence retain any leading plus sign (the characterization
`normalizePhoneSpec` written from the words of the spec); in particular
the three quoted examples normalize as stated. -/
theorem c6_normalize_characterization :
    (∀ s : String, normalizePhoneNumber s = normalizePhoneSpec s) ∧
      normalizePhoneNumber "1234567890" = "+11234567890" ∧
      normalizePhoneNumber "(123) 456-7890" = "+11234567890" ∧
      normalizePhoneNumber "+441234567890" = "+441234567890" := by
  refine ⟨fun s => ?_, by decide, by decide, by decide⟩
  simp only [normalizePhoneNumber, normalizePhoneSpec, normalizePhoneList]
  split_ifs <;> rfl

/-- C7: phone normalization is idempotent; normalizing an already
normalized identifier returns it unchanged. -/
theorem c7_normalize_idempotent (s : String) :
    normalizePhoneNumber (normalizePhoneNumber s) = normalizePhoneNumber s :=
  congrArg (fun l => (⟨l⟩ : String)) (normalizePhoneList_idem s.data)

/-- C8: for every millisecond instant strictly after the store epoch,
decoding the encoding of that instant returns it exactly (the model works
at millisecond granularity, so the sub-millisecond tolerance of the claim
is met with no error at all), and the zero sentinel is never hit. -/
theorem c8_timestamp_roundtrip (t : Int) (h : appleEpochMs < t) :
    formatAppleTimestamp (appleTimestampFromDate t) = some t := by
  have h' : (978307200000 : Int) < t := h
  unfold formatAppleTimestamp appleTimestampFromDate appleEpochMs
  rw [if_neg (by omega), Int.mul_ediv_cancel _ (by norm_num)]
  congr 1
  omega

/-- Witness for C8 at one millisecond past the store epoch. -/
theorem c8_witness :
    appleEpochMs < 978307200001 ∧
      formatAppleTimestamp (appleTimestampFromDate 978307200001) =
        some 978307200001 :=
  ⟨by decide, c8_timestamp_roundtrip 978307200001 (by decide)⟩

/-- C9 counterexample: a call to send with a recipient that fails phone
validation makes no delivery attempt at all, so the primary channel is not
attempted on every call; the call reports failure with zero attempts. -/
theorem c9_counterexample :
    Channel.iMessage ∉ (sendMessage true true "boom" "123" "hi").2 ∧
      (sendMessage true true "boom" "123" "hi").1.success = false := by
  decide

/-- C9 (amended): for every call to send whose recipient is email-shaped
or passes phone validation, the primary channel (iMessage) is attempted
first; the secondary channel (SMS) is attempted exactly when the primary
attempt fails, and at most once; no third attempt is ever made; success
reports the delivering service and a failure is reported only after both
attempts fail. -/
theorem c9_send_fallback (primaryOk secondaryOk : Bool)
    (smsErr recipient message : String)
    (h : isEmail recipient = true ∨ (validatePhoneNumber recipient).valid = true) :
    (sendMessage primaryOk secondaryOk smsErr recipient message).2.head? =
        some Channel.iMessage ∧
      (Channel.SMS ∈ (sendMessage primaryOk secondaryOk smsErr recipient message).2 ↔
        primaryOk = false) ∧
      (sendMessage primaryOk secondaryOk smsErr recipient message).2.count
        Channel.SMS ≤ 1 ∧
      (sendMessage primaryOk secondaryOk smsErr recipient message).2.length ≤ 2 ∧
      (primaryOk = true →
        (sendMessage primaryOk secondaryOk smsErr recipient message).1 =
          { success := true, service := some "iMessage", error := none }) ∧
      (primaryOk = false → secondaryOk = true →
        (sendMessage primaryOk secondaryOk smsErr recipient message).1 =
          { success := true, service := some "SMS", error := none }) ∧
      (primaryOk = false → secondaryOk = false →
        (sendMessage primaryOk secondaryOk smsErr recipient message).1.success =
            false ∧
          (sendMessage primaryOk secondaryOk smsErr recipient
              message).1.error.isSome = true) := by
  have hred : sendMessage primaryOk secondaryOk smsErr recipient message =
      attemptDelivery primaryOk secondaryOk smsErr := by
    rcases h with h | h
    · simp [sendMessage, h]
    · by_cases hem : isEmail recipient = true
      · simp [sendMessage, hem]
      · have hem' : isEmail recipient = false := by simpa using hem
        simp [sendMessage, hem', h]
  rw [hred]
  cases primaryOk <;> cases secondaryOk <;> simp [attemptDelivery]

/-- Witness for the amended C9: sending to an email-shaped recipient with
a failing primary channel and a working secondary channel attempts
iMessage first and SMS once, and reports SMS delivery. -/
theorem c9_witness :
    (isEmail "a@b.co" = true ∨ (validatePhoneNumber "a@b.co").valid = true) ∧
      ((sendMessage false true "e" "a@b.co" "hi").2.head? = some Channel.iMessage ∧
        (Channel.SMS ∈ (sendMessage false true "e" "a@b.co" "hi").2 ↔
          false = false) ∧
        (sendMessage false true "e" "a@b.co" "hi").2.count Channel.SMS ≤ 1 ∧
        (sendMessage false true "e" "a@b.co" "hi").2.length ≤ 2 ∧
        (false = true → (sendMessage false true "e" "a@b.co" "hi").1 =
          { success := true, service := some "iMessage", error := none }) ∧
        (false = false → true = true → (sendMessage false true "e" "a@b.co" "hi").1 =
          { success := true, service := some "SMS", error := none }) ∧
        (false = false → true = false →
          (sendMessage false true "e" "a@b.co" "hi").1.success = false ∧
            (sendMessage false true "e" "a@b.co" "hi").1.error.isSome = true)) :=
  ⟨Or.inl rfl, c9_send_fallback false true "e" "a@b.co" "hi" (Or.inl rfl)⟩

end IMessageMcp
